import Mathlib

/-!
Shallow embedding of `src/main.py`: a discrete-event simulation of a
capacity-limited service station (SimPy `Resource`) processing a stream of
arriving employees over a fixed horizon, sweeping over several machine
counts and reducing per-run samples to summary metrics.

Modelling conventions:
* Virtual time is `ℚ` (the Python floats are IEEE doubles; none of the
  claims concern rounding, so exact rationals stand in for them).
* The random draws are explicit inputs.  `random.expovariate(rate)`
  returns `E / rate` where `E` is a unit-exponential draw, so we carry the
  unit draws (`arrivalExp`, `serviceExp`) and the uniform jitter draws
  (`jitter`) as functions of the draw index; the rate selection of
  `setup` (lines 40-46) then still matters and is embedded.
* The SimPy scheduler dispatches pending events ordered by
  (time, insertion id); `env.run(until=SIMULATION_DURATION)` dispatches
  only events strictly before the horizon (the stop event is inserted
  before any simulation event at the same timestamp).  Each employee's
  body is executed at its grant moment, which reproduces the observable
  state transitions of the SimPy run.
-/

/-! ### Scheduler-queue lemmas -/

/-! ### Projection lemmas for the dispatch functions -/

/-- `EXPECTED_EMPLOYEES` (main.py line 6). -/
def EXPECTED_EMPLOYEES : ℕ := 1000

/-- `PEAK_ARRIVAL_RATE` (main.py line 7). -/
def PEAK_ARRIVAL_RATE : ℚ := 1/2

/-- `LOW_ARRIVAL_RATE` (main.py line 8). -/
def LOW_ARRIVAL_RATE : ℚ := 1/20

/-- `SERVICE_RATE` (main.py line 9): the rate handed to
`random.expovariate`; the adjacent comment calls it "Average service time". -/
def SERVICE_RATE : ℚ := 1/12

/-- `SIMULATION_DURATION` (main.py line 10). -/
def SIMULATION_DURATION : ℚ := 3600

/-- Per-run configuration: machine count, target arrival count, horizon. -/
structure Config where
  capacity : ℕ
  target : ℕ
  horizon : ℚ
  deriving DecidableEq

/-- The sampled random draws of one run, indexed by draw position:
`arrivalExp k` is the unit-exponential draw behind the `k`-th
`random.expovariate(arrival_rate)` call of `setup` (line 49); `serviceExp k`
and `jitter k` are the unit-exponential and `random.uniform(0.8, 1.2)` draws
behind employee `k`'s service time (line 30). -/
structure Streams where
  arrivalExp : ℕ → ℚ
  serviceExp : ℕ → ℚ
  jitter : ℕ → ℚ

/-- All draws non-negative (true of exponential and uniform(0.8,1.2) draws). -/
def NonnegStr (str : Streams) : Prop :=
  ∀ k, 0 ≤ str.arrivalExp k ∧ 0 ≤ str.serviceExp k ∧ 0 ≤ str.jitter k

/-- The piecewise-constant arrival rate of `setup` (main.py lines 40-46). -/
def arrivalRate (t : ℚ) : ℚ :=
  if 0 ≤ t ∧ t < 1200 then LOW_ARRIVAL_RATE
  else if 1200 ≤ t ∧ t < 2400 then PEAK_ARRIVAL_RATE
  else LOW_ARRIVAL_RATE

/-- Inter-arrival gap sampled at draw index `k` when the clock reads `t`:
`random.expovariate(arrival_rate)` = unit draw / rate (main.py line 49). -/
def interGap (str : Streams) (k : ℕ) (t : ℚ) : ℚ :=
  str.arrivalExp k / arrivalRate t

/-- Service duration of employee `k`:
`random.expovariate(SERVICE_RATE) * random.uniform(0.8, 1.2)`
(main.py line 30). -/
def serviceDuration (str : Streams) (k : ℕ) : ℚ :=
  str.serviceExp k / SERVICE_RATE * str.jitter k

/-- Kinds of pending scheduler events: the arrival generator's next wake-up
(the `env.timeout` of line 49) or the completion of employee `e`'s service
(the `env.timeout` of line 30). -/
inductive EvKind where
  | gen : EvKind
  | done : ℕ → EvKind
  deriving DecidableEq

/-- Whether an event kind is the generator wake-up. -/
def EvKind.isGen : EvKind → Bool
  | .gen => true
  | .done _ => false

/-- Whether an event kind is a service completion. -/
def EvKind.isDone : EvKind → Bool
  | .gen => false
  | .done _ => true

/-- A pending scheduler event: due time, insertion id (SimPy's tie-break),
and kind. -/
structure Event where
  time : ℚ
  eid : ℕ
  kind : EvKind
  deriving DecidableEq

/-- The observable state of one run: SimPy clock and event queue, the
`simpy.Resource` (held count `users` and FIFO wait `queue` of employee ids),
the generator's `employee_count`, the collector lists `wait_times`,
`queue_lengths`, and `served` (= `served_count[0]`).  `arrivalOf` records
each employee's arrival time (the local `arrival_time` of line 23);
`arrivalQLen` and `grants` are ghost observers: the queue length seen at
each arrival and the (employee, time) grant log, used only to state
properties. -/
structure SimSt where
  now : ℚ
  nextEid : ℕ
  events : List Event
  users : ℕ
  queue : List ℕ
  count : ℕ
  wait_times : List ℚ
  queue_lengths : List ℕ
  served : ℕ
  arrivalOf : List ℚ
  arrivalQLen : List ℕ
  grants : List (ℕ × ℚ)
  deriving DecidableEq

/-- `a` is dispatched strictly before `b`: earlier time, or equal time and
earlier insertion id (SimPy's `(time, eid)` heap order). -/
def evBefore (a b : Event) : Bool :=
  a.time < b.time ∨ (a.time = b.time ∧ a.eid < b.eid)

/-- Extract the next-due event (minimal by `(time, eid)`) and the remaining
queue. -/
def selectNext : List Event → Option (Event × List Event)
  | [] => none
  | e :: es =>
    match selectNext es with
    | none => some (e, [])
    | some (m, rest) => if evBefore m e then some (m, e :: rest) else some (e, es)

/-- Grant the machine to employee `k` right now: the body of `employee`
after `yield req` (main.py lines 26-30) plus the resource's slot take.
The caller has already removed `k` from the wait queue when the grant
comes from a release. -/
def grantService (str : Streams) (k : ℕ) (s : SimSt) : SimSt :=
  { s with
    users := s.users + 1,
    wait_times := s.wait_times ++ [s.now - s.arrivalOf.getD (k - 1) 0],
    queue_lengths := s.queue_lengths ++ [s.queue.length],
    grants := s.grants ++ [(k, s.now)],
    events := s.events ++ [⟨s.now + serviceDuration str k, s.nextEid, .done k⟩],
    nextEid := s.nextEid + 1 }

/-- The generator's timeout fires (loop of `setup`, main.py lines 38-51):
employee `count+1` is spawned — its arrival time and the queue length it
sees on arrival are recorded — and the generator samples and schedules its
next wake-up while the spawn count is still below the target. -/
def spawnState (cfg : Config) (str : Streams) (s0 : SimSt) : SimSt :=
  let s1 : SimSt := { s0 with
    count := s0.count + 1,
    arrivalOf := s0.arrivalOf ++ [s0.now],
    arrivalQLen := s0.arrivalQLen ++ [s0.queue.length] }
  if s1.count < cfg.target then
    { s1 with
      events := s1.events ++ [⟨s1.now + interGap str s1.count s1.now, s1.nextEid, .gen⟩],
      nextEid := s1.nextEid + 1 }
  else s1

/-- Dispatch a generator wake-up: spawn the next employee, then the new
employee requests the machine (main.py lines 24-25) — granted at once when
a slot is free, else appended to the FIFO wait queue. -/
def dispatchGen (cfg : Config) (str : Streams) (s0 : SimSt) : SimSt :=
  let s2 := spawnState cfg str s0
  if s2.users < cfg.capacity then grantService str s2.count s2
  else { s2 with queue := s2.queue ++ [s2.count] }

/-- Dispatch a service completion (main.py line 31 and the `with` exit of
`employee`): the served counter is bumped, the slot released, and the head
of the wait queue (if any) is granted in the same scheduling step. -/
def dispatchDone (str : Streams) (s0 : SimSt) : SimSt :=
  let s1 : SimSt := { s0 with served := s0.served + 1, users := s0.users - 1 }
  match s1.queue with
  | [] => s1
  | f :: q => grantService str f { s1 with queue := q }

/-- One scheduler dispatch of `env.run` (main.py line 63): pop the
next-due event; if it is due strictly before the horizon, advance the clock
and run its continuation, else stop (the state is left unchanged, so `step`
is the identity on finished runs). -/
def step (cfg : Config) (str : Streams) (s : SimSt) : SimSt :=
  match selectNext s.events with
  | none => s
  | some (ev, rest) =>
    if ev.time < cfg.horizon then
      match ev.kind with
      | .gen => dispatchGen cfg str { s with events := rest, now := ev.time }
      | .done _ => dispatchDone str { s with events := rest, now := ev.time }
    else s

/-- Initial state of a run: fresh clock, resource and collector
(main.py lines 56-59), with the generator's first timeout already scheduled
(the first iteration of `setup`'s loop, skipped entirely when the target is
zero). -/
def initSt (cfg : Config) (str : Streams) : SimSt :=
  { now := 0, nextEid := 1,
    events := if 0 < cfg.target then [⟨interGap str 0 0, 0, .gen⟩] else [],
    users := 0, queue := [], count := 0,
    wait_times := [], queue_lengths := [], served := 0,
    arrivalOf := [], arrivalQLen := [], grants := [] }

/-- Run up to `n` scheduler dispatches, stopping as soon as the run is
finished (no pending event is due before the horizon).  `step` is the
identity on finished runs, so this agrees with iterating `step` `n`
times; the early exit only keeps evaluation shallow. -/
def runFuel (cfg : Config) (str : Streams) : ℕ → SimSt → SimSt
  | 0, s => s
  | n + 1, s =>
    match selectNext s.events with
    | none => s
    | some (ev, _) =>
      if ev.time < cfg.horizon then runFuel cfg str n (step cfg str s) else s

/-- The state after `n` dispatches from the initial state: "a point during
the run". -/
def iterSim (cfg : Config) (str : Streams) (n : ℕ) : SimSt :=
  runFuel cfg str n (initSt cfg str)

/-- The completed run.  Every dispatch either spawns one employee (at most
`target` of them) or completes one service (at most one per spawn), so
`2 * target + 2` dispatches always reach the final state; `step` is the
identity there, so surplus fuel is harmless. -/
def runSim (cfg : Config) (str : Streams) : SimSt :=
  runFuel cfg str (2 * cfg.target + 2) (initSt cfg str)

/-- `avg_wait_time` (main.py line 66). -/
def avg_wait_time (s : SimSt) : ℚ :=
  if s.wait_times = [] then 0 else s.wait_times.sum / (s.wait_times.length : ℚ)

/-- `avg_queue_length` (main.py line 67). -/
def avg_queue_length (s : SimSt) : ℚ :=
  if s.queue_lengths = [] then 0
  else (s.queue_lengths.map (fun n : ℕ => (n : ℚ))).sum / (s.queue_lengths.length : ℚ)

/-- `utilization` (main.py line 68):
`len(wait_times) / (SIMULATION_DURATION * num_machines) * SERVICE_RATE`. -/
def utilization (cfg : Config) (s : SimSt) : ℚ :=
  (s.wait_times.length : ℚ) / (cfg.horizon * (cfg.capacity : ℚ)) * SERVICE_RATE

/-- `throughput` (main.py line 69). -/
def throughput (cfg : Config) (s : SimSt) : ℚ :=
  (s.served : ℚ) / cfg.horizon

/-- The `results` accumulator (main.py lines 13-19). -/
structure Results where
  num_machines : List ℕ
  wait_times : List ℚ
  queue_lengths : List ℚ
  utilization : List ℚ
  throughput : List ℚ
  deriving DecidableEq

/-- The empty `results` accumulator. -/
def emptyResults : Results :=
  { num_machines := [], wait_times := [], queue_lengths := [],
    utilization := [], throughput := [] }

/-- Configuration of one run with `m` machines (main.py lines 54-63). -/
def cfgFor (m : ℕ) : Config :=
  { capacity := m, target := EXPECTED_EMPLOYEES, horizon := SIMULATION_DURATION }

/-- One iteration of the sweep loop (main.py lines 54-76): run the
simulation with `m` machines on draw stream `str`, reduce, and append one
entry to each results list. -/
def sweepStep (acc : Results) (m : ℕ) (str : Streams) : Results :=
  let s := runSim (cfgFor m) str
  { num_machines := acc.num_machines ++ [m],
    wait_times := acc.wait_times ++ [avg_wait_time s],
    queue_lengths := acc.queue_lengths ++ [avg_queue_length s],
    utilization := acc.utilization ++ [utilization (cfgFor m) s],
    throughput := acc.throughput ++ [throughput (cfgFor m) s] }

/-- Sweep over a list of (machine count, per-run draw stream) pairs. -/
def runSweep (runs : List (ℕ × Streams)) : Results :=
  runs.foldl (fun acc p => sweepStep acc p.1 p.2) emptyResults

/-- The machine counts of the sweep (main.py line 54). -/
def capacityList : List ℕ := [1, 3, 5, 7, 10]

/-- The full parameter sweep of main.py lines 54-76 over
`capacityList = [1, 3, 5, 7, 10]`, with the draw stream of the `i`-th run
given by `strOf i`. -/
def mainSweep (strOf : ℕ → Streams) : Results :=
  runSweep [(1, strOf 0), (3, strOf 1), (5, strOf 2), (7, strOf 3), (10, strOf 4)]

/-- Request (= arrival) time of employee `k` in state `s`. -/
def reqTime (s : SimSt) (k : ℕ) : ℚ :=
  s.arrivalOf.getD (k - 1) 0

/-- Capacity invariant (claim C5): slots held never exceed capacity, and a
free slot implies an empty wait queue. -/
def CapInv (cfg : Config) (s : SimSt) : Prop :=
  s.users ≤ cfg.capacity ∧ (s.users < cfg.capacity → s.queue = [])

/-- Collector/counter invariant (claims C9 and C3). -/
def CountInv (cfg : Config) (s : SimSt) : Prop :=
  s.wait_times.length = s.queue_lengths.length ∧
  s.served + s.events.countP (fun ev => ev.kind.isDone) = s.wait_times.length ∧
  s.count ≤ cfg.target ∧
  s.events.countP (fun ev => ev.kind.isGen) = if s.count < cfg.target then 1 else 0

/-- FIFO/time invariant (claim C6): arrival times are recorded in
non-decreasing order and never in the future; pending events are never in
the past; the grant log is ordered by employee id with non-decreasing grant
times; waiting employees arrived after every already-granted employee; the
wait queue lists employee ids in increasing (arrival) order. -/
structure FifoInv (s : SimSt) : Prop where
  arrival_len : s.arrivalOf.length = s.count
  arrival_mono : s.arrivalOf.Pairwise (· ≤ ·)
  arrival_le : ∀ t ∈ s.arrivalOf, t ≤ s.now
  ev_future : ∀ ev ∈ s.events, s.now ≤ ev.time
  grants_pair : s.grants.Pairwise (fun p q => p.1 < q.1 ∧ p.2 ≤ q.2)
  grants_id : ∀ p ∈ s.grants, 1 ≤ p.1 ∧ p.1 ≤ s.count
  grants_time : ∀ p ∈ s.grants, p.2 ≤ s.now
  queue_id : ∀ j ∈ s.queue, 1 ≤ j ∧ j ≤ s.count
  queue_sorted : s.queue.Pairwise (· < ·)
  grants_queue : ∀ p ∈ s.grants, ∀ j ∈ s.queue, p.1 < j

/-- Arithmetic mean as the spec words it: 0 on an empty sample list. -/
def mean (l : List ℚ) : ℚ :=
  if l = [] then 0 else l.sum / (l.length : ℚ)

/-- The configured mean service duration: `random.expovariate(SERVICE_RATE)`
has mean `1 / SERVICE_RATE` (= 12 seconds), and the uniform(0.8, 1.2) jitter
has mean 1. -/
def MEAN_SERVICE_DURATION : ℚ := 1 / SERVICE_RATE

/-- Utilization as claim C1 words it: (entities recorded by
`recordCompletion` × mean per-service-time) / (horizon × capacity). -/
def specUtilization (cfg : Config) (s : SimSt) : ℚ :=
  ((s.served : ℚ) * MEAN_SERVICE_DURATION) / (cfg.horizon * (cfg.capacity : ℚ))

/-- The capacity-1 run of the sweep (main.py line 54, first iteration). -/
def mainCfg : Config := cfgFor 1

/-- Draw stream: one employee arrives at t = 1000 and its service runs past
the horizon; the next arrival would fall far beyond the horizon. -/
def c1Str : Streams :=
  { arrivalExp := fun k => if k = 0 then 50 else 1000000,
    serviceExp := fun _ => 300,
    jitter := fun _ => 1 }

/-- Draw stream: three employees arrive at t = 100, 200, 300 (gaps
5 / (1/20) = 100) and each service takes 100 / (1/12) = 1200 seconds. -/
def c2Str : Streams :=
  { arrivalExp := fun k => if k < 3 then 5 else 1000000,
    serviceExp := fun _ => 100,
    jitter := fun _ => 1 }

/-- Draw stream with all draws equal to 1. -/
def onesStr : Streams :=
  { arrivalExp := fun _ => 1, serviceExp := fun _ => 1, jitter := fun _ => 1 }

/-- Draw stream whose first inter-arrival gap already overshoots the
horizon: 1000000 / (1/20) = 20000000 ≥ 3600. -/
def bigGapStr : Streams :=
  { arrivalExp := fun _ => 1000000, serviceExp := fun _ => 1, jitter := fun _ => 1 }

/-- State of the capacity-1, single-entity run after the lone arrival has
been dispatched and granted at time `interGap str 0 0`. -/
def c7S1 (str : Streams) : SimSt :=
  { now := interGap str 0 0, nextEid := 2,
    events := [⟨interGap str 0 0 + serviceDuration str 1, 1, .done 1⟩],
    users := 1, queue := [], count := 1,
    wait_times := [interGap str 0 0 - interGap str 0 0],
    queue_lengths := [0], served := 0,
    arrivalOf := [interGap str 0 0], arrivalQLen := [0],
    grants := [(1, interGap str 0 0)] }

/-- State of that run after the service completion has also been
dispatched. -/
def c7S2 (str : Streams) : SimSt :=
  { now := interGap str 0 0 + serviceDuration str 1, nextEid := 2,
    events := [], users := 0, queue := [], count := 1,
    wait_times := [interGap str 0 0 - interGap str 0 0],
    queue_lengths := [0], served := 1,
    arrivalOf := [interGap str 0 0], arrivalQLen := [0],
    grants := [(1, interGap str 0 0)] }

/-! ### Lemmas and claim theorems -/

theorem selectNext_eq_none {l : List Event} : selectNext l = none ↔ l = [] := by
  cases l with
  | nil => simp [selectNext]
  | cons e es =>
    rw [selectNext]
    cases h : selectNext es with
    | none => simp
    | some p => obtain ⟨m, rest⟩ := p; by_cases hb : evBefore m e <;> simp [hb]

theorem selectNext_perm :
    ∀ {l : List Event} {e : Event} {rest : List Event},
      selectNext l = some (e, rest) → l.Perm (e :: rest) := by
  intro l
  induction l with
  | nil => intro e rest h; simp [selectNext] at h
  | cons a as ih =>
    intro e rest h
    rw [selectNext] at h
    split at h
    · rename_i heq
      obtain ⟨rfl, rfl⟩ : a = e ∧ ([] : List Event) = rest := by
        simpa using h
      have : as = [] := selectNext_eq_none.mp heq
      subst this
      exact List.Perm.refl _
    · rename_i m rest' heq
      split at h
      · obtain ⟨rfl, rfl⟩ : m = e ∧ a :: rest' = rest := by simpa using h
        exact ((ih heq).cons a).trans (List.Perm.swap m a rest')
      · obtain ⟨rfl, rfl⟩ : a = e ∧ as = rest := by simpa using h
        exact List.Perm.refl _

theorem selectNext_min_time :
    ∀ {l : List Event} {e : Event} {rest : List Event},
      selectNext l = some (e, rest) → ∀ x ∈ l, e.time ≤ x.time := by
  intro l
  induction l with
  | nil => intro e rest h; simp [selectNext] at h
  | cons a as ih =>
    intro e rest h x hx
    rw [selectNext] at h
    split at h
    · rename_i heq
      obtain ⟨rfl, rfl⟩ : a = e ∧ ([] : List Event) = rest := by simpa using h
      have : as = [] := selectNext_eq_none.mp heq
      subst this
      rcases List.mem_singleton.mp hx with rfl
      exact le_refl _
    · rename_i m rest' heq
      split at h
      · rename_i hb
        obtain ⟨rfl, rfl⟩ : m = e ∧ a :: rest' = rest := by simpa using h
        rcases List.mem_cons.mp hx with rfl | hx'
        · rcases of_decide_eq_true hb with hlt | ⟨heq2, _⟩
          · exact le_of_lt hlt
          · exact le_of_eq heq2
        · exact ih heq x hx'
      · rename_i hb
        obtain ⟨rfl, rfl⟩ : a = e ∧ as = rest := by simpa using h
        rcases List.mem_cons.mp hx with rfl | hx'
        · exact le_refl _
        · have h1 := ih heq x hx'
          have h2 : ¬ (m.time < a.time ∨ (m.time = a.time ∧ m.eid < a.eid)) := by
            simpa [evBefore] using hb
          push_neg at h2
          exact le_trans h2.1 h1

theorem pairwise_mem_cases {α : Type} {R : α → α → Prop} :
    ∀ {l : List α}, l.Pairwise R → ∀ {x y : α}, x ∈ l → y ∈ l → x = y ∨ R x y ∨ R y x := by
  intro l h
  induction h with
  | nil => intro x y hx _; simp at hx
  | cons hr _ ih =>
    intro x y hx hy
    rcases List.mem_cons.mp hx with rfl | hx' <;> rcases List.mem_cons.mp hy with rfl | hy'
    · exact Or.inl rfl
    · exact Or.inr (Or.inl (hr _ hy'))
    · exact Or.inr (Or.inr (hr _ hx'))
    · exact ih hx' hy'

theorem pairwise_le_getD {l : List ℚ} (h : l.Pairwise (· ≤ ·)) {i j : ℕ}
    (hij : i ≤ j) (hj : j < l.length) : l.getD i 0 ≤ l.getD j 0 := by
  rcases eq_or_lt_of_le hij with rfl | hlt
  · exact le_refl _
  · have hi : i < l.length := lt_of_le_of_lt (le_of_lt hlt) hj
    rw [List.getD_eq_getElem _ _ hi, List.getD_eq_getElem _ _ hj]
    have := List.pairwise_iff_get.mp h ⟨i, hi⟩ ⟨j, hj⟩ hlt
    simpa using this

@[simp] theorem isGen_gen : EvKind.gen.isGen = true := rfl

@[simp] theorem isGen_done (e : ℕ) : (EvKind.done e).isGen = false := rfl

@[simp] theorem isDone_gen : EvKind.gen.isDone = false := rfl

@[simp] theorem isDone_done (e : ℕ) : (EvKind.done e).isDone = true := rfl

@[simp] theorem spawnState_users (cfg : Config) (str : Streams) (s0 : SimSt) :
    (spawnState cfg str s0).users = s0.users := by
  unfold spawnState; dsimp only; split <;> rfl

@[simp] theorem spawnState_queue (cfg : Config) (str : Streams) (s0 : SimSt) :
    (spawnState cfg str s0).queue = s0.queue := by
  unfold spawnState; dsimp only; split <;> rfl

@[simp] theorem spawnState_count (cfg : Config) (str : Streams) (s0 : SimSt) :
    (spawnState cfg str s0).count = s0.count + 1 := by
  unfold spawnState; dsimp only; split <;> rfl

@[simp] theorem spawnState_now (cfg : Config) (str : Streams) (s0 : SimSt) :
    (spawnState cfg str s0).now = s0.now := by
  unfold spawnState; dsimp only; split <;> rfl

@[simp] theorem spawnState_wait_times (cfg : Config) (str : Streams) (s0 : SimSt) :
    (spawnState cfg str s0).wait_times = s0.wait_times := by
  unfold spawnState; dsimp only; split <;> rfl

@[simp] theorem spawnState_queue_lengths (cfg : Config) (str : Streams) (s0 : SimSt) :
    (spawnState cfg str s0).queue_lengths = s0.queue_lengths := by
  unfold spawnState; dsimp only; split <;> rfl

@[simp] theorem spawnState_served (cfg : Config) (str : Streams) (s0 : SimSt) :
    (spawnState cfg str s0).served = s0.served := by
  unfold spawnState; dsimp only; split <;> rfl

@[simp] theorem spawnState_grants (cfg : Config) (str : Streams) (s0 : SimSt) :
    (spawnState cfg str s0).grants = s0.grants := by
  unfold spawnState; dsimp only; split <;> rfl

@[simp] theorem spawnState_arrivalOf (cfg : Config) (str : Streams) (s0 : SimSt) :
    (spawnState cfg str s0).arrivalOf = s0.arrivalOf ++ [s0.now] := by
  unfold spawnState; dsimp only; split <;> rfl

theorem spawnState_events (cfg : Config) (str : Streams) (s0 : SimSt) :
    (spawnState cfg str s0).events =
      if s0.count + 1 < cfg.target then
        s0.events ++ [⟨s0.now + interGap str (s0.count + 1) s0.now, s0.nextEid, .gen⟩]
      else s0.events := by
  unfold spawnState; dsimp only; split <;> rfl

theorem capInv_dispatchGen (cfg : Config) (str : Streams) {s0 : SimSt}
    (h1 : s0.users ≤ cfg.capacity) (h2 : s0.users < cfg.capacity → s0.queue = []) :
    CapInv cfg (dispatchGen cfg str s0) := by
  rw [dispatchGen]
  by_cases hu : (spawnState cfg str s0).users < cfg.capacity
  · rw [if_pos hu]
    rw [spawnState_users] at hu
    constructor
    · simp [grantService, hu]
      omega
    · intro h
      simp [grantService] at h ⊢
      exact h2 (by omega)
  · rw [if_neg hu]
    rw [spawnState_users] at hu
    constructor
    · simpa using h1
    · intro h
      simp at h
      omega

theorem capInv_dispatchDone (cfg : Config) (str : Streams) (hcap : 0 < cfg.capacity)
    {s0 : SimSt} (h1 : s0.users ≤ cfg.capacity)
    (h2 : s0.users < cfg.capacity → s0.queue = []) :
    CapInv cfg (dispatchDone str s0) := by
  rw [dispatchDone]
  rcases hq : s0.queue with _ | ⟨f, q⟩
  · exact ⟨by simp; omega, fun _ => by simp [hq]⟩
  · have husers : s0.users = cfg.capacity := by
      by_contra hne
      have := h2 (lt_of_le_of_ne h1 hne)
      simp [this] at hq
    constructor
    · simp [grantService, husers]
      omega
    · intro h
      simp [grantService, husers] at h
      omega

theorem capInv_step (cfg : Config) (str : Streams) (hcap : 0 < cfg.capacity)
    {s : SimSt} (h : CapInv cfg s) : CapInv cfg (step cfg str s) := by
  obtain ⟨h1, h2⟩ := h
  rw [step]
  split
  · exact ⟨h1, h2⟩
  · rename_i ev rest hsel
    split
    · split
      · exact capInv_dispatchGen cfg str h1 h2
      · exact capInv_dispatchDone cfg str hcap h1 h2
    · exact ⟨h1, h2⟩

theorem countInv_dispatchGen (cfg : Config) (str : Streams) {s0 : SimSt}
    (hlen : s0.wait_times.length = s0.queue_lengths.length)
    (hsd : s0.served + s0.events.countP (fun ev => ev.kind.isDone) = s0.wait_times.length)
    (hgen : s0.events.countP (fun ev => ev.kind.isGen) = 0)
    (hct : s0.count < cfg.target) :
    CountInv cfg (dispatchGen cfg str s0) := by
  rw [dispatchGen]
  by_cases htar : s0.count + 1 < cfg.target <;>
    by_cases hu : (spawnState cfg str s0).users < cfg.capacity <;>
      [rw [if_pos hu]; rw [if_neg hu]; rw [if_pos hu]; rw [if_neg hu]] <;>
      refine ⟨?_, ?_, ?_, ?_⟩ <;>
        simp [grantService, spawnState_events, htar, List.countP_append, hlen, hgen] <;>
          omega

theorem countInv_dispatchDone (cfg : Config) (str : Streams) {s0 : SimSt}
    (hlen : s0.wait_times.length = s0.queue_lengths.length)
    (hsd : s0.served + s0.events.countP (fun ev => ev.kind.isDone) + 1 = s0.wait_times.length)
    (hgen : s0.events.countP (fun ev => ev.kind.isGen) = if s0.count < cfg.target then 1 else 0)
    (hct : s0.count ≤ cfg.target) :
    CountInv cfg (dispatchDone str s0) := by
  rw [dispatchDone]
  rcases hq : s0.queue with _ | ⟨f, q⟩ <;>
    refine ⟨?_, ?_, ?_, ?_⟩ <;>
      simp [grantService, List.countP_append, hlen, hgen] <;>
        omega

theorem countInv_step (cfg : Config) (str : Streams) {s : SimSt}
    (h : CountInv cfg s) : CountInv cfg (step cfg str s) := by
  obtain ⟨h1, h2, h3, h4⟩ := h
  rw [step]
  split
  · exact ⟨h1, h2, h3, h4⟩
  · rename_i ev rest hsel
    split
    · have hperm := selectNext_perm hsel
      have hcntD := hperm.countP_eq (fun ev => ev.kind.isDone)
      have hcntG := hperm.countP_eq (fun ev => ev.kind.isGen)
      rw [List.countP_cons] at hcntD hcntG
      split
      · rename_i hkind
        rw [hkind] at hcntD hcntG
        simp at hcntD hcntG
        have hct : s.count < cfg.target := by
          by_contra hc
          rw [if_neg hc] at h4
          omega
        have hgen0 : rest.countP (fun ev => ev.kind.isGen) = 0 := by
          rw [if_pos hct] at h4
          omega
        refine countInv_dispatchGen cfg str h1 ?_ hgen0 hct
        show s.served + rest.countP (fun ev => ev.kind.isDone) = s.wait_times.length
        omega
      · rename_i e hkind
        rw [hkind] at hcntD hcntG
        simp at hcntD hcntG
        refine countInv_dispatchDone cfg str h1 ?_ ?_ h3
        · show s.served + rest.countP (fun ev => ev.kind.isDone) + 1 = s.wait_times.length
          omega
        · show rest.countP (fun ev => ev.kind.isGen) = if s.count < cfg.target then 1 else 0
          omega
    · exact ⟨h1, h2, h3, h4⟩

theorem arrivalRate_pos (t : ℚ) : 0 < arrivalRate t := by
  rw [arrivalRate]
  split
  · norm_num [LOW_ARRIVAL_RATE]
  · split
    · norm_num [PEAK_ARRIVAL_RATE]
    · norm_num [LOW_ARRIVAL_RATE]

theorem interGap_nonneg (str : Streams) (hstr : NonnegStr str) (k : ℕ) (t : ℚ) :
    0 ≤ interGap str k t :=
  div_nonneg (hstr k).1 (arrivalRate_pos t).le

theorem serviceDuration_nonneg (str : Streams) (hstr : NonnegStr str) (k : ℕ) :
    0 ≤ serviceDuration str k :=
  mul_nonneg (div_nonneg (hstr k).2.1 (by norm_num [SERVICE_RATE])) (hstr k).2.2

theorem fifoInv_grant (str : Streams) (hstr : NonnegStr str) {s : SimSt} {k : ℕ}
    (h : FifoInv s) (hk1 : 1 ≤ k) (hk2 : k ≤ s.count)
    (hdom : ∀ p ∈ s.grants, p.1 < k) (hkq : ∀ j ∈ s.queue, k < j) :
    FifoInv (grantService str k s) := by
  refine ⟨?_, ?_, ?_, ?_, ?_, ?_, ?_, ?_, ?_, ?_⟩
  · exact h.arrival_len
  · exact h.arrival_mono
  · exact h.arrival_le
  · show ∀ ev ∈ s.events ++ [⟨s.now + serviceDuration str k, s.nextEid, .done k⟩],
      s.now ≤ ev.time
    intro x hx
    rcases List.mem_append.mp hx with hx | hx
    · exact h.ev_future x hx
    · rcases List.mem_singleton.mp hx with rfl
      have := serviceDuration_nonneg str hstr k
      show s.now ≤ s.now + serviceDuration str k
      linarith
  · show (s.grants ++ [(k, s.now)]).Pairwise (fun p q => p.1 < q.1 ∧ p.2 ≤ q.2)
    rw [List.pairwise_append]
    refine ⟨h.grants_pair, by simp, ?_⟩
    intro p hp q hq
    rcases List.mem_singleton.mp hq with rfl
    exact ⟨hdom p hp, h.grants_time p hp⟩
  · show ∀ p ∈ s.grants ++ [(k, s.now)], 1 ≤ p.1 ∧ p.1 ≤ s.count
    intro p hp
    rcases List.mem_append.mp hp with hp | hp
    · exact h.grants_id p hp
    · rcases List.mem_singleton.mp hp with rfl
      exact ⟨hk1, hk2⟩
  · show ∀ p ∈ s.grants ++ [(k, s.now)], p.2 ≤ s.now
    intro p hp
    rcases List.mem_append.mp hp with hp | hp
    · exact h.grants_time p hp
    · rcases List.mem_singleton.mp hp with rfl
      exact le_refl _
  · exact h.queue_id
  · exact h.queue_sorted
  · show ∀ p ∈ s.grants ++ [(k, s.now)], ∀ j ∈ s.queue, p.1 < j
    intro p hp j hj
    rcases List.mem_append.mp hp with hp | hp
    · exact h.grants_queue p hp j hj
    · rcases List.mem_singleton.mp hp with rfl
      exact hkq j hj

theorem fifoInv_spawn (cfg : Config) (str : Streams) (hstr : NonnegStr str)
    {s0 : SimSt} (h : FifoInv s0) : FifoInv (spawnState cfg str s0) := by
  refine ⟨?_, ?_, ?_, ?_, ?_, ?_, ?_, ?_, ?_, ?_⟩
  · rw [spawnState_arrivalOf, spawnState_count]
    simp [h.arrival_len]
  · rw [spawnState_arrivalOf]
    rw [List.pairwise_append]
    refine ⟨h.arrival_mono, by simp, ?_⟩
    intro t ht u hu
    rcases List.mem_singleton.mp hu with rfl
    exact h.arrival_le t ht
  · rw [spawnState_arrivalOf, spawnState_now]
    intro t ht
    rcases List.mem_append.mp ht with ht | ht
    · exact h.arrival_le t ht
    · rcases List.mem_singleton.mp ht with rfl
      exact le_refl _
  · rw [spawnState_events, spawnState_now]
    split
    · intro x hx
      rcases List.mem_append.mp hx with hx | hx
      · exact h.ev_future x hx
      · rcases List.mem_singleton.mp hx with rfl
        have := interGap_nonneg str hstr (s0.count + 1) s0.now
        show s0.now ≤ s0.now + interGap str (s0.count + 1) s0.now
        linarith
    · exact h.ev_future
  · rw [spawnState_grants]
    exact h.grants_pair
  · rw [spawnState_grants, spawnState_count]
    intro p hp
    have := h.grants_id p hp
    omega
  · rw [spawnState_grants, spawnState_now]
    exact h.grants_time
  · rw [spawnState_queue, spawnState_count]
    intro j hj
    have := h.queue_id j hj
    omega
  · rw [spawnState_queue]
    exact h.queue_sorted
  · rw [spawnState_grants, spawnState_queue]
    exact h.grants_queue

theorem fifoInv_dispatchGen (cfg : Config) (str : Streams) (hstr : NonnegStr str)
    {s0 : SimSt} (h : FifoInv s0)
    (hfree : s0.users < cfg.capacity → s0.queue = []) :
    FifoInv (dispatchGen cfg str s0) := by
  rw [dispatchGen]
  have hsp := fifoInv_spawn cfg str hstr h
  by_cases hu : (spawnState cfg str s0).users < cfg.capacity
  · rw [if_pos hu]
    refine fifoInv_grant str hstr hsp ?_ (le_refl _) ?_ ?_
    · rw [spawnState_count]; omega
    · intro p hp
      rw [spawnState_grants] at hp
      rw [spawnState_count]
      have := h.grants_id p hp
      omega
    · intro j hj
      rw [spawnState_queue] at hj
      rw [spawnState_users] at hu
      rw [hfree hu] at hj
      simp at hj
  · rw [if_neg hu]
    refine ⟨hsp.arrival_len, hsp.arrival_mono, hsp.arrival_le, hsp.ev_future,
      hsp.grants_pair, hsp.grants_id, hsp.grants_time, ?_, ?_, ?_⟩
    · show ∀ j ∈ (spawnState cfg str s0).queue ++ [(spawnState cfg str s0).count],
        1 ≤ j ∧ j ≤ (spawnState cfg str s0).count
      intro j hj
      rcases List.mem_append.mp hj with hj | hj
      · exact hsp.queue_id j hj
      · rcases List.mem_singleton.mp hj with rfl
        rw [spawnState_count]
        omega
    · show ((spawnState cfg str s0).queue ++ [(spawnState cfg str s0).count]).Pairwise (· < ·)
      rw [List.pairwise_append]
      refine ⟨hsp.queue_sorted, by simp, ?_⟩
      intro j hj u hu
      rcases List.mem_singleton.mp hu with rfl
      rw [spawnState_queue] at hj
      rw [spawnState_count]
      have := h.queue_id j hj
      omega
    · show ∀ p ∈ (spawnState cfg str s0).grants,
        ∀ j ∈ (spawnState cfg str s0).queue ++ [(spawnState cfg str s0).count], p.1 < j
      intro p hp j hj
      rcases List.mem_append.mp hj with hj | hj
      · exact hsp.grants_queue p hp j hj
      · rcases List.mem_singleton.mp hj with rfl
        rw [spawnState_grants] at hp
        rw [spawnState_count]
        have := h.grants_id p hp
        omega

theorem fifoInv_dispatchDone (str : Streams) (hstr : NonnegStr str)
    {s0 : SimSt} (h : FifoInv s0) : FifoInv (dispatchDone str s0) := by
  rw [dispatchDone]
  dsimp only
  rcases hq : s0.queue with _ | ⟨f, q⟩
  · simp only [hq]
    exact ⟨h.arrival_len, h.arrival_mono, h.arrival_le, h.ev_future, h.grants_pair,
      h.grants_id, h.grants_time, fun j hj => by simp at hj,
      List.Pairwise.nil, fun p hp j hj => by simp at hj⟩
  · simp only [hq]
    have hsort := h.queue_sorted
    rw [hq] at hsort
    have hcons := List.pairwise_cons.mp hsort
    have hmemf : f ∈ s0.queue := by rw [hq]; exact List.mem_cons_self f q
    refine fifoInv_grant str hstr ⟨h.arrival_len, h.arrival_mono, h.arrival_le,
      h.ev_future, h.grants_pair, h.grants_id, h.grants_time, ?_, hcons.2, ?_⟩
      (h.queue_id f hmemf).1 (h.queue_id f hmemf).2 ?_ ?_
    · intro j hj
      exact h.queue_id j (by rw [hq]; exact List.mem_cons_of_mem f hj)
    · intro p hp j hj
      exact h.grants_queue p hp j (by rw [hq]; exact List.mem_cons_of_mem f hj)
    · intro p hp
      exact h.grants_queue p hp f hmemf
    · intro j hj
      exact hcons.1 j hj

theorem fifoInv_step (cfg : Config) (str : Streams) (hstr : NonnegStr str)
    {s : SimSt} (h : FifoInv s)
    (hfree : s.users < cfg.capacity → s.queue = []) : FifoInv (step cfg str s) := by
  rw [step]
  split
  · exact h
  · rename_i ev rest hsel
    split
    · have hperm := selectNext_perm hsel
      have hmem : ev ∈ s.events := hperm.mem_iff.mpr (by simp)
      have hnow : s.now ≤ ev.time := h.ev_future ev hmem
      have hrest : ∀ x ∈ rest, ev.time ≤ x.time := by
        intro x hx
        exact selectNext_min_time hsel x (hperm.mem_iff.mpr (by simp [hx]))
      have h0 : FifoInv ({ s with events := rest, now := ev.time } : SimSt) :=
        ⟨h.arrival_len, h.arrival_mono,
         fun t htm => le_trans (h.arrival_le t htm) hnow,
         fun x hx => hrest x hx, h.grants_pair, h.grants_id,
         fun p hp => le_trans (h.grants_time p hp) hnow,
         h.queue_id, h.queue_sorted, h.grants_queue⟩
      split
      · exact fifoInv_dispatchGen cfg str hstr h0 hfree
      · exact fifoInv_dispatchDone str hstr h0
    · exact h

theorem fifoInv_init (cfg : Config) (str : Streams) (hstr : NonnegStr str) :
    FifoInv (initSt cfg str) := by
  refine ⟨rfl, List.Pairwise.nil, ?_, ?_, List.Pairwise.nil, ?_, ?_, ?_,
    List.Pairwise.nil, ?_⟩
  · intro t ht
    simp [initSt] at ht
  · intro x hx
    have hx' : x ∈ (if 0 < cfg.target
        then [(⟨interGap str 0 0, 0, EvKind.gen⟩ : Event)] else ([] : List Event)) := hx
    show (0 : ℚ) ≤ x.time
    split at hx'
    · rcases List.mem_singleton.mp hx' with rfl
      exact interGap_nonneg str hstr 0 0
    · simp at hx'
  · intro p hp
    simp [initSt] at hp
  · intro p hp
    simp [initSt] at hp
  · intro j hj
    simp [initSt] at hj
  · intro p hp
    simp [initSt] at hp

/-- A property preserved by `step` holds after any number of dispatches. -/
theorem runFuel_preserve {P : SimSt → Prop} (cfg : Config) (str : Streams)
    (hstep : ∀ s, P s → P (step cfg str s)) :
    ∀ n (s : SimSt), P s → P (runFuel cfg str n s) := by
  intro n
  induction n with
  | zero => intro s h; exact h
  | succ n ih =>
    intro s h
    rw [runFuel]
    split
    · exact h
    · split
      · exact ih _ (hstep _ h)
      · exact h

theorem capInv_iter (cfg : Config) (str : Streams) (hcap : 0 < cfg.capacity) (n : ℕ) :
    CapInv cfg (iterSim cfg str n) :=
  runFuel_preserve cfg str (fun _ hs => capInv_step cfg str hcap hs) n _
    ⟨Nat.zero_le _, fun _ => rfl⟩

theorem countInv_init (cfg : Config) (str : Streams) : CountInv cfg (initSt cfg str) := by
  refine ⟨rfl, ?_, Nat.zero_le _, ?_⟩
  · simp only [initSt]
    split <;> simp
  · simp only [initSt]
    split <;> simp

theorem countInv_iter (cfg : Config) (str : Streams) (n : ℕ) :
    CountInv cfg (iterSim cfg str n) :=
  runFuel_preserve cfg str (fun _ hs => countInv_step cfg str hs) n _
    (countInv_init cfg str)

theorem capFifoInv_iter (cfg : Config) (str : Streams) (hcap : 0 < cfg.capacity)
    (hstr : NonnegStr str) (n : ℕ) :
    CapInv cfg (iterSim cfg str n) ∧ FifoInv (iterSim cfg str n) :=
  @runFuel_preserve (fun s => CapInv cfg s ∧ FifoInv s) cfg str
    (fun _ hs => ⟨capInv_step cfg str hcap hs.1, fifoInv_step cfg str hstr hs.2 hs.1.2⟩) n _
    ⟨⟨Nat.zero_le _, fun _ => rfl⟩, fifoInv_init cfg str hstr⟩

/-- Once every pending event is due at or after the horizon, a dispatch
changes nothing: `env.run(until=...)` never executes such events. -/
theorem step_halted (cfg : Config) (str : Streams) {s : SimSt}
    (h : ∀ ev ∈ s.events, cfg.horizon ≤ ev.time) : step cfg str s = s := by
  rw [step]
  split
  · rfl
  · rename_i ev rest hsel
    have hmem : ev ∈ s.events := (selectNext_perm hsel).mem_iff.mpr (by simp)
    rw [if_neg (not_lt.mpr (h ev hmem))]

/-- C1, counterexample: in the capacity-1 run on `c1Str`, one employee
starts service (one wait sample) but never completes before the horizon
(`served = 0`), so the reported utilization, `len(wait_times) /
(SIMULATION_DURATION * num_machines) * SERVICE_RATE = 1/43200`, differs
from the claim's `served × mean-service-duration / (horizon × capacity)
= 0`: the code counts service starts, not recorded completions, and
multiplies by the rate constant, not the mean duration. -/
theorem C1_counterexample :
    (runSim mainCfg c1Str).wait_times.length = 1 ∧
    (runSim mainCfg c1Str).served = 0 ∧
    utilization mainCfg (runSim mainCfg c1Str) = 1 / 43200 ∧
    specUtilization mainCfg (runSim mainCfg c1Str) = 0 ∧
    utilization mainCfg (runSim mainCfg c1Str) ≠
      specUtilization mainCfg (runSim mainCfg c1Str) := by decide!

/-- C1, amended: the reported utilization equals (number of entities that
started service, i.e. recorded wait samples) × the configured
`SERVICE_RATE` constant / (horizon × capacity). -/
theorem C1_amended (cfg : Config) (str : Streams) :
    utilization cfg (runSim cfg str) =
      ((runSim cfg str).wait_times.length : ℚ) * SERVICE_RATE /
        (cfg.horizon * (cfg.capacity : ℚ)) := by
  rw [utilization]
  ring

/-- C3, counterexample: on `bigGapStr` the very first sampled arrival falls
at t = 20000000, past the horizon, so the completed capacity-1 run ends
with zero entities spawned — far short of the 1000-entity target — while
the generator's next wake-up is still pending: the generator does not keep
spawning up to the target count regardless of the horizon; the scheduler
cuts it off. -/
theorem C3_counterexample :
    (runSim (cfgFor 1) bigGapStr).count = 0 ∧
    (runSim (cfgFor 1) bigGapStr).count < EXPECTED_EMPLOYEES ∧
    (runSim (cfgFor 1) bigGapStr).events.countP (fun ev => ev.kind.isGen) = 1 := by decide!

/-- C3, amended: the generator never spawns past the target and stops
scheduling wake-ups exactly when the target is reached (at every point of
the run, one wake-up is pending iff the spawn count is below the target);
but spawning also ceases when the horizon elapses, because a dispatch
whose pending events are all due at or after the horizon leaves the state
unchanged. -/
theorem C3_amended (cfg : Config) (str : Streams) :
    (∀ n : ℕ, (iterSim cfg str n).count ≤ cfg.target ∧
      ((iterSim cfg str n).events.countP (fun ev => ev.kind.isGen) =
        if (iterSim cfg str n).count < cfg.target then 1 else 0)) ∧
    (∀ s : SimSt, (∀ ev ∈ s.events, cfg.horizon ≤ ev.time) → step cfg str s = s) := by
  constructor
  · intro n
    have h := countInv_iter cfg str n
    exact ⟨h.2.2.1, h.2.2.2⟩
  · intro s h
    exact step_halted cfg str h

/-- C5: at every point of any run with positive capacity, the held count
never exceeds the capacity, and whenever a slot is free the wait queue is
empty (so no request is left waiting at the head while a slot is free). -/
theorem C5_capacity (cfg : Config) (str : Streams) (hcap : 0 < cfg.capacity) (n : ℕ) :
    (iterSim cfg str n).users ≤ cfg.capacity ∧
      ((iterSim cfg str n).users < cfg.capacity → (iterSim cfg str n).queue = []) :=
  capInv_iter cfg str hcap n

/-- C5, witness: the capacity hypothesis holds for the capacity-1 run. -/
theorem C5_capacity_witness :
    (iterSim mainCfg onesStr 3).users ≤ mainCfg.capacity ∧
      ((iterSim mainCfg onesStr 3).users < mainCfg.capacity →
        (iterSim mainCfg onesStr 3).queue = []) :=
  C5_capacity mainCfg onesStr (by decide) 3

/-- C9: at every point of any run, the wait-time and queue-length sample
lists have equal length, the served counter is bounded by that length, and
the utilization numerator is exactly the wait-sample count — the number of
entities that started service, completed or not. -/
theorem C9_collector (cfg : Config) (str : Streams) (n : ℕ) :
    (iterSim cfg str n).wait_times.length = (iterSim cfg str n).queue_lengths.length ∧
    (iterSim cfg str n).served ≤ (iterSim cfg str n).wait_times.length ∧
    utilization cfg (iterSim cfg str n) =
      ((iterSim cfg str n).wait_times.length : ℚ) /
        (cfg.horizon * (cfg.capacity : ℚ)) * SERVICE_RATE := by
  have h := countInv_iter cfg str n
  refine ⟨h.1, ?_, rfl⟩
  have := h.2.1
  omega

theorem sweepStep_num_machines (acc : Results) (m : ℕ) (str : Streams) :
    (sweepStep acc m str).num_machines = acc.num_machines ++ [m] := rfl

theorem sweepStep_wait_times (acc : Results) (m : ℕ) (str : Streams) :
    (sweepStep acc m str).wait_times =
      acc.wait_times ++ [avg_wait_time (runSim (cfgFor m) str)] := rfl

theorem sweepStep_queue_lengths (acc : Results) (m : ℕ) (str : Streams) :
    (sweepStep acc m str).queue_lengths =
      acc.queue_lengths ++ [avg_queue_length (runSim (cfgFor m) str)] := rfl

theorem sweepStep_utilization (acc : Results) (m : ℕ) (str : Streams) :
    (sweepStep acc m str).utilization =
      acc.utilization ++ [utilization (cfgFor m) (runSim (cfgFor m) str)] := rfl

theorem sweepStep_throughput (acc : Results) (m : ℕ) (str : Streams) :
    (sweepStep acc m str).throughput =
      acc.throughput ++ [throughput (cfgFor m) (runSim (cfgFor m) str)] := rfl

/-- C10: after the full sweep, the machine-count list is exactly
[1, 3, 5, 7, 10] and all five results lists have length 5 — one entry per
configuration, in configuration order. -/
theorem C10_sweep (strOf : ℕ → Streams) :
    (mainSweep strOf).num_machines = [1, 3, 5, 7, 10] ∧
    (mainSweep strOf).num_machines.length = 5 ∧
    (mainSweep strOf).wait_times.length = 5 ∧
    (mainSweep strOf).queue_lengths.length = 5 ∧
    (mainSweep strOf).utilization.length = 5 ∧
    (mainSweep strOf).throughput.length = 5 := by
  refine ⟨?_, ?_, ?_, ?_, ?_, ?_⟩ <;>
    simp [mainSweep, runSweep, emptyResults, sweepStep_num_machines, sweepStep_wait_times,
      sweepStep_queue_lengths, sweepStep_utilization, sweepStep_throughput]

/-- C8: with per-run draw streams, the capacity-3 results are identical
whether the capacity-3 run is executed before or after a capacity-5 run
(entry 0 of the first sweep equals entry 1 of the reversed sweep). -/
theorem C8_isolation (s3 s5a s5b : Streams) :
    ((runSweep [(3, s3), (5, s5a)]).num_machines[0]?,
     (runSweep [(3, s3), (5, s5a)]).wait_times[0]?,
     (runSweep [(3, s3), (5, s5a)]).queue_lengths[0]?,
     (runSweep [(3, s3), (5, s5a)]).utilization[0]?,
     (runSweep [(3, s3), (5, s5a)]).throughput[0]?) =
    ((runSweep [(5, s5b), (3, s3)]).num_machines[1]?,
     (runSweep [(5, s5b), (3, s3)]).wait_times[1]?,
     (runSweep [(5, s5b), (3, s3)]).queue_lengths[1]?,
     (runSweep [(5, s5b), (3, s3)]).utilization[1]?,
     (runSweep [(5, s5b), (3, s3)]).throughput[1]?) := by
  simp [runSweep, emptyResults, sweepStep_num_machines, sweepStep_wait_times,
    sweepStep_queue_lengths, sweepStep_utilization, sweepStep_throughput]

/-- C2, counterexample: in the capacity-1 run on `c2Str` (arrivals at
t = 100, 200, 300, service 1200 s), the second granted entity is employee
2; the queue-length sample recorded for it is 1 (employee 3 was waiting at
employee 2's grant, t = 1300), but the queue length observed at the moment
employee 2 arrived (t = 200) was 0 — the recorded sample is not the
queue length seen on arrival. -/
theorem C2_counterexample :
    (runSim mainCfg c2Str).grants.map Prod.fst = [1, 2, 3] ∧
    (runSim mainCfg c2Str).queue_lengths = [0, 1, 0] ∧
    (runSim mainCfg c2Str).arrivalQLen = [0, 0, 1] ∧
    (runSim mainCfg c2Str).queue_lengths[1]? ≠ (runSim mainCfg c2Str).arrivalQLen[1]? := by
  decide!

/-- C2, amended: whenever a dispatch records a sample pair for a granted
entity `k`, the wait-time half of the claim stands — the recorded wait is
the grant time minus `k`'s request (arrival) time — but the queue-length
sample is the length of the wait queue at the moment of the grant, after
`k`'s own request has been dequeued, not the length observed at `k`'s
arrival. -/
theorem C2_amended (cfg : Config) (str : Streams) (s : SimSt) :
    ((step cfg str s).queue_lengths = s.queue_lengths ∧
      (step cfg str s).wait_times = s.wait_times) ∨
    (∃ k, (step cfg str s).queue_lengths =
        s.queue_lengths ++ [(step cfg str s).queue.length] ∧
      (step cfg str s).wait_times =
        s.wait_times ++ [(step cfg str s).now - reqTime (step cfg str s) k] ∧
      (step cfg str s).grants = s.grants ++ [(k, (step cfg str s).now)]) := by
  rw [step]
  split
  · exact Or.inl ⟨rfl, rfl⟩
  · rename_i ev rest hsel
    split
    · split
      · -- generator dispatch
        rw [dispatchGen]
        by_cases hu : (spawnState cfg str ({ s with events := rest, now := ev.time } : SimSt)).users < cfg.capacity
        · rw [if_pos hu]
          refine Or.inr ⟨(spawnState cfg str ({ s with events := rest, now := ev.time } : SimSt)).count, ?_, ?_, ?_⟩ <;>
            simp [grantService, reqTime]
        · rw [if_neg hu]
          exact Or.inl ⟨by simp, by simp⟩
      · -- completion dispatch
        rw [dispatchDone]
        dsimp only
        rcases hq : ({ s with events := rest, now := ev.time } : SimSt).queue with _ | ⟨f, q⟩
        · simp only [hq]
          exact Or.inl ⟨by simp, by simp⟩
        · simp only [hq]
          refine Or.inr ⟨f, ?_, ?_, ?_⟩ <;> simp [grantService, reqTime]
    · exact Or.inl ⟨rfl, rfl⟩

/-- C4: for every completed run of the sweep, the reported average wait
time is the arithmetic mean of the recorded wait-time samples and the
reported average queue length is the arithmetic mean of the recorded
queue-length samples, each taken as 0 when no sample was recorded. -/
theorem C4_averages (m : ℕ) (str : Streams) (acc : Results) :
    (sweepStep acc m str).wait_times =
      acc.wait_times ++ [mean (runSim (cfgFor m) str).wait_times] ∧
    (sweepStep acc m str).queue_lengths =
      acc.queue_lengths ++
        [mean ((runSim (cfgFor m) str).queue_lengths.map (fun n : ℕ => (n : ℚ)))] := by
  constructor
  · rw [sweepStep_wait_times]
    rfl
  · rw [sweepStep_queue_lengths]
    rw [avg_queue_length, mean]
    by_cases h : (runSim (cfgFor m) str).queue_lengths = []
    · simp [h]
    · rw [if_neg h, if_neg (fun hmap => h (List.map_eq_nil_iff.mp hmap))]
      rw [List.length_map]

/-- C6: strict FIFO — at every point of any run with positive capacity and
non-negative draws, if entities A and B were both granted service and A
issued its acquisition request (at its arrival) strictly before B, then A
was granted no later than B. -/
theorem C6_fifo (cfg : Config) (str : Streams) (hcap : 0 < cfg.capacity)
    (hstr : NonnegStr str) (n : ℕ) {a b : ℕ} {ta tb : ℚ}
    (ha : (a, ta) ∈ (iterSim cfg str n).grants)
    (hb : (b, tb) ∈ (iterSim cfg str n).grants)
    (hab : reqTime (iterSim cfg str n) a < reqTime (iterSim cfg str n) b) :
    ta ≤ tb := by
  obtain ⟨-, hf⟩ := capFifoInv_iter cfg str hcap hstr n
  have hia := hf.grants_id _ ha
  have hib := hf.grants_id _ hb
  simp only at hia hib
  have hab' : a < b := by
    by_contra hc
    push_neg at hc
    have hle : reqTime (iterSim cfg str n) b ≤ reqTime (iterSim cfg str n) a := by
      rw [reqTime, reqTime]
      refine pairwise_le_getD hf.arrival_mono ?_ ?_
      · omega
      · rw [hf.arrival_len]
        omega
    exact absurd hab (not_lt.mpr hle)
  rcases pairwise_mem_cases hf.grants_pair ha hb with heq | hR | hR
  · rw [Prod.mk.injEq] at heq
    omega
  · exact hR.2
  · exfalso
    have : b < a := hR.1
    omega

/-- C7: in a run with capacity 1 and exactly one arriving entity (target
count 1) whose arrival falls inside the horizon, the recorded wait-time
sample is 0 and the recorded queue-length sample is 0. -/
theorem C7_single (str : Streams) (h : interGap str 0 0 < SIMULATION_DURATION) :
    (runSim ⟨1, 1, SIMULATION_DURATION⟩ str).wait_times = [0] ∧
    (runSim ⟨1, 1, SIMULATION_DURATION⟩ str).queue_lengths = [0] := by
  have hs1 : step ⟨1, 1, SIMULATION_DURATION⟩ str (initSt ⟨1, 1, SIMULATION_DURATION⟩ str) =
      if interGap str 0 0 < SIMULATION_DURATION then c7S1 str
      else initSt ⟨1, 1, SIMULATION_DURATION⟩ str := rfl
  rw [if_pos h] at hs1
  have hrun : runSim ⟨1, 1, SIMULATION_DURATION⟩ str =
      runFuel ⟨1, 1, SIMULATION_DURATION⟩ str 3
        (step ⟨1, 1, SIMULATION_DURATION⟩ str (initSt ⟨1, 1, SIMULATION_DURATION⟩ str)) := by
    show runFuel ⟨1, 1, SIMULATION_DURATION⟩ str (3 + 1) (initSt ⟨1, 1, SIMULATION_DURATION⟩ str) = _
    rw [runFuel]
    show (if interGap str 0 0 < SIMULATION_DURATION then
        runFuel ⟨1, 1, SIMULATION_DURATION⟩ str 3
          (step ⟨1, 1, SIMULATION_DURATION⟩ str (initSt ⟨1, 1, SIMULATION_DURATION⟩ str))
      else initSt ⟨1, 1, SIMULATION_DURATION⟩ str) = _
    rw [if_pos h]
  rw [hrun, hs1]
  by_cases hd : interGap str 0 0 + serviceDuration str 1 < SIMULATION_DURATION
  · have hstep1 : step ⟨1, 1, SIMULATION_DURATION⟩ str (c7S1 str) =
        if interGap str 0 0 + serviceDuration str 1 < SIMULATION_DURATION then c7S2 str
        else c7S1 str := rfl
    rw [if_pos hd] at hstep1
    have hrf : runFuel ⟨1, 1, SIMULATION_DURATION⟩ str 3 (c7S1 str) =
        runFuel ⟨1, 1, SIMULATION_DURATION⟩ str 2
          (step ⟨1, 1, SIMULATION_DURATION⟩ str (c7S1 str)) := by
      show runFuel ⟨1, 1, SIMULATION_DURATION⟩ str (2 + 1) (c7S1 str) = _
      rw [runFuel]
      show (if interGap str 0 0 + serviceDuration str 1 < SIMULATION_DURATION then
          runFuel ⟨1, 1, SIMULATION_DURATION⟩ str 2
            (step ⟨1, 1, SIMULATION_DURATION⟩ str (c7S1 str))
        else c7S1 str) = _
      rw [if_pos hd]
    rw [hrf, hstep1]
    have hfix : runFuel ⟨1, 1, SIMULATION_DURATION⟩ str 2 (c7S2 str) = c7S2 str := rfl
    rw [hfix]
    exact ⟨by show [interGap str 0 0 - interGap str 0 0] = [0]; rw [sub_self], rfl⟩
  · have hrf : runFuel ⟨1, 1, SIMULATION_DURATION⟩ str 3 (c7S1 str) = c7S1 str := by
      show runFuel ⟨1, 1, SIMULATION_DURATION⟩ str (2 + 1) (c7S1 str) = _
      rw [runFuel]
      show (if interGap str 0 0 + serviceDuration str 1 < SIMULATION_DURATION then
          runFuel ⟨1, 1, SIMULATION_DURATION⟩ str 2
            (step ⟨1, 1, SIMULATION_DURATION⟩ str (c7S1 str))
        else c7S1 str) = _
      rw [if_neg hd]
    rw [hrf]
    exact ⟨by show [interGap str 0 0 - interGap str 0 0] = [0]; rw [sub_self], rfl⟩

/-- C7, witness: with all draws 1 the gap is 20 seconds, well inside the
horizon, so the hypothesis of the single-entity theorem is satisfied. -/
theorem C7_single_witness :
    interGap onesStr 0 0 < SIMULATION_DURATION ∧
    ((runSim ⟨1, 1, SIMULATION_DURATION⟩ onesStr).wait_times = [0] ∧
     (runSim ⟨1, 1, SIMULATION_DURATION⟩ onesStr).queue_lengths = [0]) :=
  ⟨by decide!, C7_single onesStr (by decide!)⟩

/-- All draws of `c2Str` are non-negative. -/
theorem c2Str_nonneg : NonnegStr c2Str := by
  intro k
  refine ⟨?_, ?_, ?_⟩
  · show (0 : ℚ) ≤ if k < 3 then 5 else 1000000
    split <;> norm_num
  · norm_num [c2Str]
  · norm_num [c2Str]

/-- C6, witness: in the concrete capacity-1 run on `c2Str`, employees 1 and
2 are both granted (at times 100 and 1300), employee 1 requested strictly
earlier, and its grant is indeed no later. -/
theorem C6_fifo_witness :
    0 < mainCfg.capacity ∧
    ((1, (100 : ℚ)) ∈ (iterSim mainCfg c2Str 2002).grants) ∧
    ((2, (1300 : ℚ)) ∈ (iterSim mainCfg c2Str 2002).grants) ∧
    reqTime (iterSim mainCfg c2Str 2002) 1 < reqTime (iterSim mainCfg c2Str 2002) 2 ∧
    (100 : ℚ) ≤ 1300 :=
  ⟨by decide, by decide!, by decide!, by decide!,
    @C6_fifo mainCfg c2Str (by decide) c2Str_nonneg 2002 1 2 100 1300
      (by decide!) (by decide!) (by decide!)⟩
